import Mathlib

/-!
Verification of `file-forensic-timeline` (`src/main.py`) against its
natural-language specification.

The development shallowly embeds the program.  The filesystem visible to one
run is modelled as a static tree of entries; each entry records both how it
presents itself to enumeration-time tests (`pathlib.Path.is_file`, which
follows symlinks) and what `pathlib.Path.stat` returns at inspection time,
so that enumeration/inspection races are expressible (`FSEntry.file` with a
failing `StatResult` is a path that was a regular file when enumerated and
whose `stat` fails when inspected).

Modelling notes, fixed once here:
- `datetime.fromtimestamp(..).isoformat()` is modelled at whole-second
  precision with the local timezone taken as UTC, over the year range
  1970..9999 in which `datetime` does not raise.
- Decimal rendering of integers (Python f-string) is modelled by `natRepr`.
- `pathlib.Path.iterdir` raises `OSError` when the directory is unreadable.
  `pathlib.Path.rglob("*")` (CPython 3.6-3.12) swallows `PermissionError`
  while scanning, so an unreadable directory is skipped silently: its own
  entry is still yielded by its parent, its contents are not, and no
  exception reaches the caller.
- Symbolic links are modelled with regular-file (or dangling) targets:
  `is_file`/`stat`/`exists` follow the link, `str(path)`/`path.name` do not.
- Failures of `file.write`/`print` are modelled as `OSError`s selected by an
  oracle on the written string; `open` failure as a boolean.
-/

namespace FFT

/-- Fields of `os.stat_result` used by `get_file_metadata` in `src/main.py`. -/
structure StatInfo where
  size : Nat
  mtime : Nat
  atime : Nat
  ctime : Nat
  mode : Nat
  uid : Nat
  gid : Nat
  deriving Repr, DecidableEq

/-- Outcome of a `Path.stat()` call: success, `FileNotFoundError`, or another
`OSError` carrying its message — the two exception classes that
`get_file_metadata` distinguishes. -/
inductive StatResult where
  | ok (st : StatInfo)
  | notFound
  | osError (msg : String)
  deriving Repr, DecidableEq

/-- One filesystem entry.  `file r` is an entry that is a regular file at
enumeration time whose inspection-time `stat` returns `r`; `dir` has a
readability flag (unreadable means listing raises `PermissionError`), its own
stat data and named children; `special` is an existing entry that is neither
a regular file nor a directory (socket, device, FIFO); `symlink t` is a
symbolic link whose target is a regular file with stat data `t` (or dangling
when `t = none`). -/
inductive FSEntry where
  | file (r : StatResult)
  | dir (readable : Bool) (st : StatInfo) (children : List (String × FSEntry))
  | special (st : StatInfo)
  | symlink (target : Option StatInfo)
  deriving Repr

/-- A path, as the list of its segments; `str(path)` joins them with `/`. -/
abbrev FPath := List String

/-- Model of `str(path)`. -/
def FPath.str (p : FPath) : String := String.intercalate "/" p

/-- Model of `path.name`: the final path segment. -/
def FPath.name (p : FPath) : String := p.getLastD ""

/-- Model of `Path.is_file()` at enumeration time: true for regular files and
for symlinks resolving to a regular file (`is_file` follows symlinks and
returns `False` rather than raising). -/
def FSEntry.is_file : FSEntry → Bool
  | .file _ => true
  | .symlink (some _) => true
  | _ => false

/-- Model of `Path.is_dir()`. -/
def FSEntry.is_dir : FSEntry → Bool
  | .dir _ _ _ => true
  | _ => false

/-- Model of `Path.exists()` at validation time (follows symlinks; a dangling
symlink does not exist). -/
def FSEntry.pyExists : FSEntry → Bool
  | .symlink none => false
  | _ => true

/-- Model of `Path.stat()` at inspection time (follows symlinks). -/
def FSEntry.statRes : FSEntry → StatResult
  | .file r => r
  | .dir _ st _ => .ok st
  | .special st => .ok st
  | .symlink (some st) => .ok st
  | .symlink none => .notFound

/-- Whether the inspection-time `stat` of the entry succeeds. -/
def FSEntry.statOk (e : FSEntry) : Bool :=
  match e.statRes with
  | .ok _ => true
  | _ => false

/-- The decimal digit character for `k % 10`. -/
def digitChar (k : Nat) : Char := Char.ofNat (48 + k % 10)

/-- Decimal digits of `n`, most significant first; `fuel` bounds recursion
depth and any `fuel > log10 n` gives the exact digits. -/
def natChars (fuel : Nat) (n : Nat) : List Char :=
  match fuel with
  | 0 => []
  | fuel + 1 => if n < 10 then [digitChar n] else natChars fuel (n / 10) ++ [digitChar n]

/-- Decimal rendering of a natural number, modelling Python `str(int)` for
nonnegative values. -/
def natRepr (n : Nat) : String := ⟨natChars (n + 1) n⟩

/-- Two-digit zero-padded decimal rendering (`%02d` for values below 100). -/
def pad2 (n : Nat) : String := ⟨[digitChar (n / 10), digitChar n]⟩

/-- Four-digit zero-padded decimal rendering (`%04d` for values below 10000). -/
def pad4 (n : Nat) : String :=
  ⟨[digitChar (n / 1000), digitChar (n / 100), digitChar (n / 10), digitChar n]⟩

/-- Proleptic-Gregorian civil date `(year, month, day)` of day number `z`
counted from 1970-01-01 (Howard Hinnant's `civil_from_days` algorithm). -/
def civilFromDays (z : Nat) : Nat × Nat × Nat :=
  let zs := z + 719468
  let era := zs / 146097
  let doe := zs % 146097
  let yoe := (doe - doe / 1460 + doe / 36524 - doe / 146096) / 365
  let y := yoe + era * 400
  let doy := doe - (365 * yoe + yoe / 4 - yoe / 100)
  let mp := (5 * doy + 2) / 153
  let d := doy - (153 * mp + 2) / 5 + 1
  let m := if mp < 10 then mp + 3 else mp - 9
  (if m ≤ 2 then y + 1 else y, m, d)

/-- Model of `datetime.datetime.fromtimestamp(ts).isoformat()` at whole-second
precision with the local timezone taken as UTC. -/
def isoformat (ts : Nat) : String :=
  let c := civilFromDays (ts / 86400)
  let secs := ts % 86400
  pad4 c.1 ++ "-" ++ pad2 c.2.1 ++ "-" ++ pad2 c.2.2 ++ "T" ++
    pad2 (secs / 3600) ++ ":" ++ pad2 (secs % 3600 / 60) ++ ":" ++ pad2 (secs % 60)

/-- First entry of `_filemode_table` whose bit pattern is wholly contained in
`mode`, or the default character (CPython `stat.filemode` inner loop). -/
def matchBits (mode : Nat) : List (Nat × Char) → Char → Char
  | [], dflt => dflt
  | (bit, ch) :: rest, dflt => if mode &&& bit = bit then ch else matchBits mode rest dflt

/-- The ten characters of `stat.filemode(mode)`, following CPython's
`_filemode_table` row by row. -/
def filemodeChars (mode : Nat) : List Char :=
  [matchBits mode
      [(0o120000, 'l'), (0o140000, 's'), (0o100000, '-'), (0o060000, 'b'),
       (0o040000, 'd'), (0o020000, 'c'), (0o010000, 'p')] '?',
   matchBits mode [(0o400, 'r')] '-',
   matchBits mode [(0o200, 'w')] '-',
   matchBits mode [(0o4100, 's'), (0o4000, 'S'), (0o100, 'x')] '-',
   matchBits mode [(0o40, 'r')] '-',
   matchBits mode [(0o20, 'w')] '-',
   matchBits mode [(0o2010, 's'), (0o2000, 'S'), (0o10, 'x')] '-',
   matchBits mode [(0o4, 'r')] '-',
   matchBits mode [(0o2, 'w')] '-',
   matchBits mode [(0o1001, 't'), (0o1000, 'T'), (0o1, 'x')] '-']

/-- Model of `stat.filemode`. -/
def filemode (mode : Nat) : String := ⟨filemodeChars mode⟩

/-- The record dictionary built by `get_file_metadata` on a successful stat. -/
structure Metadata where
  file_path : String
  file_name : String
  file_size : Nat
  modified_time : String
  accessed_time : String
  created_time : String
  permissions : String
  owner_uid : Nat
  owner_gid : Nat
  deriving Repr, DecidableEq

/-- The metadata dictionary `get_file_metadata` builds from a successful
`stat_info` for the path `p`. -/
def mkMetadata (p : FPath) (st : StatInfo) : Metadata :=
  { file_path := p.str
    file_name := p.name
    file_size := st.size
    modified_time := isoformat st.mtime
    accessed_time := isoformat st.atime
    created_time := isoformat st.ctime
    permissions := filemode st.mode
    owner_uid := st.uid
    owner_gid := st.gid }

/-- Logging levels of the `logging` module that the program uses. -/
inductive LogLevel where
  | debug
  | info
  | warning
  | error
  deriving Repr, DecidableEq

/-- One emitted log message. -/
structure LogEntry where
  level : LogLevel
  msg : String
  deriving Repr, DecidableEq

/-- Model of `get_file_metadata`: either the populated metadata dictionary, or
`None` after logging the caught `FileNotFoundError` / `OSError` at error
level. -/
def get_file_metadata (p : FPath) (e : FSEntry) : Option Metadata × List LogEntry :=
  match e.statRes with
  | .ok st => (some (mkMetadata p st), [])
  | .notFound => (none, [⟨.error, "File not found: " ++ p.str⟩])
  | .osError m => (none, [⟨.error, "Error accessing file " ++ p.str ++ ": " ++ m⟩])

/-- The `output_string` f-string of `process_file`: the nine metadata fields
joined by commas, terminated by a newline. -/
def output_string (md : Metadata) : String :=
  md.modified_time ++ "," ++ md.accessed_time ++ "," ++ md.created_time ++ "," ++
    md.file_path ++ "," ++ md.file_name ++ "," ++ natRepr md.file_size ++ "," ++
    md.permissions ++ "," ++ natRepr md.owner_uid ++ "," ++ natRepr md.owner_gid ++ "\n"

/-- A Python exception escaping a modelled call (the write failures the model
lets loose are `OSError`s, the class `process_directory` catches). -/
inductive PyExc where
  | osError (msg : String)
  deriving Repr, DecidableEq

/-- Write-failure oracle: `wf s = some m` means writing the string `s` to the
sink raises an `OSError` with message `m`. -/
abbrev WriteOracle := String → Option String

/-- Model of `process_file`: the lines actually written, the log messages
emitted, and the exception escaping the call, if any.  With an output file
(`toFile = true`) a write error is caught by the inner `except Exception` and
logged; on stdout the bare `print` lets the error propagate. -/
def process_file (p : FPath) (e : FSEntry) (toFile : Bool) (wf : WriteOracle) :
    List String × List LogEntry × Option PyExc :=
  match get_file_metadata p e with
  | (some md, lg) =>
    let s := output_string md
    if toFile then
      match wf s with
      | some m => ([], lg ++ [⟨.error, "Error writing to output file: " ++ m⟩], none)
      | none => ([s], lg, none)
    else
      match wf s with
      | some m => ([], lg, some (.osError m))
      | none => ([s], lg, none)
  | (none, lg) => ([], lg ++ [⟨.warning, "Could not process file: " ++ p.str⟩], none)

/-- Accumulated observable behaviour of a traversal loop: the paths passed to
`process_file`, the lines written, the log, and the exception that terminated
the loop, if any. -/
structure SeqOut where
  processed : List FPath
  lines : List String
  log : List LogEntry
  exc : Option PyExc
  deriving Repr, DecidableEq

/-- The `for file_path in ...: if file_path.is_file(): process_file(...)` loop
over an enumerated sequence, stopping at the first escaping exception. -/
def processSeq (toFile : Bool) (wf : WriteOracle) : List (FPath × FSEntry) → SeqOut
  | [] => ⟨[], [], [], none⟩
  | (p, e) :: rest =>
    if e.is_file then
      match process_file p e toFile wf with
      | (ls, lg, some ex) => ⟨[p], ls, lg, some ex⟩
      | (ls, lg, none) =>
        let s := processSeq toFile wf rest
        ⟨p :: s.processed, ls ++ s.lines, lg ++ s.log, s.exc⟩
    else processSeq toFile wf rest

/-- Model of `Path.iterdir()` on a readable directory: its direct children,
paired with their paths. -/
def listChildren (base : FPath) (cs : List (String × FSEntry)) : List (FPath × FSEntry) :=
  cs.map fun c => (base ++ [c.1], c.2)

/-- Model of the sequence yielded by `Path.rglob("*")` below a readable
directory: every child, with the subtree of each readable subdirectory
inlined after the child itself.  Unreadable subdirectories are yielded but
not descended into, and yield no error (CPython's glob swallows the
`PermissionError`). -/
def rglobChildren (base : FPath) : List (String × FSEntry) → List (FPath × FSEntry)
  | [] => []
  | (n, e) :: rest =>
    ((base ++ [n]), e) ::
      ((match e with
        | .dir true _ cs => rglobChildren (base ++ [n]) cs
        | _ => []) ++ rglobChildren base rest)

/-- Model of `Path.rglob("*")` on the traversal root itself: an unreadable
root yields nothing (and raises nothing). -/
def rglobRoot (base : FPath) (readable : Bool) (cs : List (String × FSEntry)) :
    List (FPath × FSEntry) :=
  if readable then rglobChildren base cs else []

/-- Observable behaviour of `process_directory`, which absorbs every
`OSError` of its loop and therefore never lets an exception escape. -/
structure DirOut where
  processed : List FPath
  lines : List String
  log : List LogEntry
  deriving Repr, DecidableEq

/-- The log line of `process_directory`'s `except OSError` handler. -/
def dirErrorLog (p : FPath) (m : String) : LogEntry :=
  ⟨.error, "Error accessing directory " ++ p.str ++ ": " ++ m⟩

/-- Message of the `PermissionError` raised by listing an unreadable
directory. -/
def permissionMsg : String := "Permission denied"

/-- Model of `process_directory` on a directory with readability `readable`
and children `cs`: enumerate with `rglob` or `iterdir`, run the loop, and
absorb an escaping `OSError` into a single directory-level error log. -/
def process_directory (dirPath : FPath) (readable : Bool) (cs : List (String × FSEntry))
    (recursive : Bool) (toFile : Bool) (wf : WriteOracle) : DirOut :=
  if recursive then
    let s := processSeq toFile wf (rglobRoot dirPath readable cs)
    match s.exc with
    | some (.osError m) => ⟨s.processed, s.lines, s.log ++ [dirErrorLog dirPath m]⟩
    | none => ⟨s.processed, s.lines, s.log⟩
  else
    if readable then
      let s := processSeq toFile wf (listChildren dirPath cs)
      match s.exc with
      | some (.osError m) => ⟨s.processed, s.lines, s.log ++ [dirErrorLog dirPath m]⟩
      | none => ⟨s.processed, s.lines, s.log⟩
    else ⟨[], [], [dirErrorLog dirPath permissionMsg]⟩

/-- The command-line arguments `main` consumes: `-r`, `-o` (given or not) and
`-v`. -/
structure Args where
  recursive : Bool
  useOutputFile : Bool
  verbose : Bool

/-- The environment of one run: the root path as given, the entry it denotes
(or `none` when no such path exists), whether `open(args.output, "w")`
raises, and the write-failure oracle. -/
structure World where
  rootPath : FPath
  root : Option FSEntry
  openFails : Bool
  writeFails : WriteOracle

/-- How the run ended: one of the three early returns, or completion of the
processing dispatch. -/
inductive Phase where
  | abortedNoPath
  | abortedOutputOpen
  | abortedInvalidType
  | completed
  deriving Repr, DecidableEq

/-- Lifecycle events of the optional output file handle. -/
inductive HEvent where
  | opened
  | closed
  deriving Repr, DecidableEq

/-- Everything observable about one run of `main`. -/
structure MainResult where
  phase : Phase
  processed : List FPath
  lines : List String
  log : List LogEntry
  handleEvents : List HEvent
  exc : Option PyExc
  logLevel : LogLevel
  deriving Repr, DecidableEq

/-- Whether `path.exists()` holds for the root at validation time. -/
def rootExists (w : World) : Bool :=
  match w.root with
  | none => false
  | some e => e.pyExists

/-- Model of `main`: logging setup, path validation, output-file opening,
dispatch on `is_file` / `is_dir`, and the `finally` that closes the handle. -/
def main (w : World) (a : Args) : MainResult :=
  let lvl := if a.verbose then LogLevel.debug else LogLevel.info
  match w.root with
  | none =>
    ⟨.abortedNoPath, [], [], [⟨.error, "Path does not exist: " ++ w.rootPath.str⟩], [], none, lvl⟩
  | some root =>
    if root.pyExists = false then
      ⟨.abortedNoPath, [], [], [⟨.error, "Path does not exist: " ++ w.rootPath.str⟩], [], none, lvl⟩
    else if a.useOutputFile && w.openFails then
      ⟨.abortedOutputOpen, [], [], [⟨.error, "Error opening output file: open failed"⟩], [], none, lvl⟩
    else
      let hs : List HEvent := if a.useOutputFile then [.opened, .closed] else []
      if root.is_file then
        let r := process_file w.rootPath root a.useOutputFile w.writeFails
        ⟨.completed, [w.rootPath], r.1, r.2.1, hs, r.2.2, lvl⟩
      else
        match root with
        | .dir readable _ cs =>
          let d := process_directory w.rootPath readable cs a.recursive a.useOutputFile w.writeFails
          ⟨.completed, d.processed, d.lines, d.log, hs, none, lvl⟩
        | _ =>
          ⟨.abortedInvalidType, [], [],
            [⟨.error, "Invalid path type.  Must be a file or directory."⟩], hs, none, lvl⟩

/-- The lines `process_file` emits for one path when every write succeeds:
one record line on a successful stat, nothing otherwise. -/
def recordOf (p : FPath) (e : FSEntry) : List String :=
  match e.statRes with
  | .ok st => [output_string (mkMetadata p st)]
  | _ => []

/-- The log messages `process_file` emits for one path when every write
succeeds. -/
def fileLog (p : FPath) (e : FSEntry) : List LogEntry :=
  match e.statRes with
  | .ok _ => []
  | .notFound =>
    [⟨.error, "File not found: " ++ p.str⟩, ⟨.warning, "Could not process file: " ++ p.str⟩]
  | .osError m =>
    [⟨.error, "Error accessing file " ++ p.str ++ ": " ++ m⟩,
     ⟨.warning, "Could not process file: " ++ p.str⟩]

/-- Splitting a character list on commas, as a CSV consumer of the output
would: `n` commas yield `n + 1` columns. -/
def splitComma : List Char → List (List Char)
  | [] => [[]]
  | c :: rest =>
    if c = ',' then [] :: splitComma rest
    else
      match splitComma rest with
      | [] => [[c]]
      | col :: cols => (c :: col) :: cols

/-- Shape check for one `YYYY-MM-DDTHH:MM:SS` timestamp column: what it means
for the column to parse as a date. -/
def isIsoDateTimeChars : List Char → Bool
  | [y1, y2, y3, y4, '-', m1, m2, '-', d1, d2, 'T', h1, h2, ':', n1, n2, ':', s1, s2] =>
    [y1, y2, y3, y4, m1, m2, d1, d2, h1, h2, n1, n2, s1, s2].all Char.isDigit
  | _ => false

/-- Stated from the spec's words for C2: the paths of "every regular file in
the full subtree" of a directory with children `cs`, one occurrence each,
ignoring readability (the spec's recursive contract presumes a listable
tree). -/
def subtreeFilePathsSpec (base : FPath) : List (String × FSEntry) → List FPath
  | [] => []
  | (n, e) :: rest =>
    (if e.is_file then [base ++ [n]] else []) ++
      ((match e with
        | .dir _ _ cs => subtreeFilePathsSpec (base ++ [n]) cs
        | _ => []) ++ subtreeFilePathsSpec base rest)

/-- Every directory in the forest is readable. -/
def allReadable : List (String × FSEntry) → Bool
  | [] => true
  | (_, e) :: rest =>
    (match e with
     | .dir r _ cs => r && allReadable cs
     | _ => true) && allReadable rest

/-- Well-formed forest: sibling names are distinct at every level, as on a
real filesystem. -/
def wellFormed : List (String × FSEntry) → Bool
  | [] => true
  | (n, e) :: rest =>
    !(rest.map Prod.fst).contains n &&
      (match e with
       | .dir _ _ cs => wellFormed cs
       | _ => true) && wellFormed rest

/-- When no write fails, `process_file` emits exactly `recordOf`/`fileLog`
and returns normally. -/
theorem process_file_noFail (p : FPath) (e : FSEntry) (toFile : Bool) (wf : WriteOracle)
    (hw : ∀ s, wf s = none) :
    process_file p e toFile wf = (recordOf p e, fileLog p e, none) := by
  unfold process_file get_file_metadata recordOf fileLog
  cases e.statRes with
  | ok st => cases toFile <;> simp [hw]
  | notFound => rfl
  | osError m => rfl

/-- When no write fails, the traversal loop processes exactly the `is_file`
entries of the enumeration, in order, emitting their records and logs. -/
theorem processSeq_noFail (toFile : Bool) (wf : WriteOracle) (hw : ∀ s, wf s = none) :
    ∀ l : List (FPath × FSEntry),
      processSeq toFile wf l =
        ⟨((l.filter fun pe => pe.2.is_file).map Prod.fst),
         ((l.filter fun pe => pe.2.is_file).flatMap fun pe => recordOf pe.1 pe.2),
         ((l.filter fun pe => pe.2.is_file).flatMap fun pe => fileLog pe.1 pe.2),
         none⟩
  | [] => rfl
  | (p, e) :: rest => by
    rw [processSeq]
    cases hf : e.is_file with
    | false => simp [hf, processSeq_noFail toFile wf hw rest]
    | true => simp [hf, process_file_noFail p e toFile wf hw, processSeq_noFail toFile wf hw rest]

/-- Non-recursive `process_directory` over a readable directory with no write
failure: records and logs of the `is_file` children, in order. -/
theorem process_directory_nonrec_noFail (dirPath : FPath) (cs : List (String × FSEntry))
    (toFile : Bool) (wf : WriteOracle) (hw : ∀ s, wf s = none) :
    process_directory dirPath true cs false toFile wf =
      ⟨(((listChildren dirPath cs).filter fun pe => pe.2.is_file).map Prod.fst),
       (((listChildren dirPath cs).filter fun pe => pe.2.is_file).flatMap fun pe =>
         recordOf pe.1 pe.2),
       (((listChildren dirPath cs).filter fun pe => pe.2.is_file).flatMap fun pe =>
         fileLog pe.1 pe.2)⟩ := by
  simp [process_directory, processSeq_noFail toFile wf hw]

/-- Recursive `process_directory` over a readable root with no write failure:
records and logs of the `is_file` entries of the `rglob` enumeration. -/
theorem process_directory_rec_noFail (dirPath : FPath) (cs : List (String × FSEntry))
    (toFile : Bool) (wf : WriteOracle) (hw : ∀ s, wf s = none) :
    process_directory dirPath true cs true toFile wf =
      ⟨(((rglobChildren dirPath cs).filter fun pe => pe.2.is_file).map Prod.fst),
       (((rglobChildren dirPath cs).filter fun pe => pe.2.is_file).flatMap fun pe =>
         recordOf pe.1 pe.2),
       (((rglobChildren dirPath cs).filter fun pe => pe.2.is_file).flatMap fun pe =>
         fileLog pe.1 pe.2)⟩ := by
  simp [process_directory, rglobRoot, processSeq_noFail toFile wf hw]

/-- Non-recursive `process_directory` on an unreadable directory: `iterdir`
raises, the handler logs one directory-level error, nothing is processed, and
the call returns normally. -/
theorem process_directory_nonrec_unreadable (dirPath : FPath) (cs : List (String × FSEntry))
    (toFile : Bool) (wf : WriteOracle) :
    process_directory dirPath false cs false toFile wf =
      ⟨[], [], [dirErrorLog dirPath permissionMsg]⟩ := rfl

/-- Recursive `process_directory` on an unreadable root: `rglob` swallows the
`PermissionError`, so nothing is processed and nothing is logged. -/
theorem process_directory_rec_unreadable (dirPath : FPath) (cs : List (String × FSEntry))
    (toFile : Bool) (wf : WriteOracle) :
    process_directory dirPath false cs true toFile wf = ⟨[], [], []⟩ := rfl

/-- Splitting a comma-free character list yields that single column. -/
theorem splitComma_no_comma (l : List Char) (h : ',' ∉ l) : splitComma l = [l] := by
  induction l with
  | nil => rfl
  | cons c rest ih =>
    rw [splitComma]
    have hc : ¬ c = ',' := fun hc => h (hc ▸ List.mem_cons_self c rest)
    rw [if_neg hc, ih (fun hm => h (List.mem_cons_of_mem c hm))]

/-- Splitting past a comma-free prefix produces that prefix as the first
column. -/
theorem splitComma_append (a b : List Char) (h : ',' ∉ a) :
    splitComma (a ++ ',' :: b) = a :: splitComma b := by
  induction a with
  | nil => simp [splitComma]
  | cons c rest ih =>
    have hc : ¬ c = ',' := fun hc => h (hc ▸ List.mem_cons_self c rest)
    have ih' := ih (fun hm => h (List.mem_cons_of_mem c hm))
    simp only [List.cons_append, splitComma, if_neg hc, List.append_eq, ih']

/-- The digit characters are actual digits. -/
theorem digitChar_isDigit (k : Nat) : (digitChar k).isDigit = true := by
  unfold digitChar
  have h : k % 10 < 10 := Nat.mod_lt k (by omega)
  interval_cases h' : k % 10 <;> decide

/-- No digit character is a comma. -/
theorem digitChar_ne_comma (k : Nat) : digitChar k ≠ ',' := by
  unfold digitChar
  have h : k % 10 < 10 := Nat.mod_lt k (by omega)
  interval_cases h' : k % 10 <;> decide

/-- Every character that `natChars` produces is a digit. -/
theorem natChars_digits (fuel : Nat) : ∀ n c, c ∈ natChars fuel n → c.isDigit = true := by
  induction fuel with
  | zero => intro n c hc; simp [natChars] at hc
  | succ fuel ih =>
    intro n c hc
    rw [natChars] at hc
    by_cases h : n < 10
    · rw [if_pos h] at hc
      simp at hc
      rw [hc]; exact digitChar_isDigit n
    · rw [if_neg h] at hc
      rcases List.mem_append.mp hc with h1 | h1
      · exact ih (n / 10) c h1
      · simp at h1; rw [h1]; exact digitChar_isDigit n

/-- The decimal rendering of a natural number contains no comma. -/
theorem natRepr_no_comma (n : Nat) : ',' ∉ (natRepr n).data := by
  intro hm
  have := natChars_digits (n + 1) n ',' hm
  simp [Char.isDigit] at this

/-- The characters of an `isoformat` timestamp, explicitly. -/
theorem isoformat_data (ts : Nat) :
    (isoformat ts).data =
      [digitChar ((civilFromDays (ts / 86400)).1 / 1000),
       digitChar ((civilFromDays (ts / 86400)).1 / 100),
       digitChar ((civilFromDays (ts / 86400)).1 / 10),
       digitChar (civilFromDays (ts / 86400)).1, '-',
       digitChar ((civilFromDays (ts / 86400)).2.1 / 10),
       digitChar (civilFromDays (ts / 86400)).2.1, '-',
       digitChar ((civilFromDays (ts / 86400)).2.2 / 10),
       digitChar (civilFromDays (ts / 86400)).2.2, 'T',
       digitChar (ts % 86400 / 3600 / 10), digitChar (ts % 86400 / 3600), ':',
       digitChar (ts % 86400 % 3600 / 60 / 10), digitChar (ts % 86400 % 3600 / 60), ':',
       digitChar (ts % 86400 % 60 / 10), digitChar (ts % 86400 % 60)] := by
  simp [isoformat, pad4, pad2, String.data_append]

/-- Every `isoformat` timestamp parses as a date. -/
theorem isoformat_isIso (ts : Nat) : isIsoDateTimeChars (isoformat ts).data = true := by
  rw [isoformat_data]
  show ([digitChar ((civilFromDays (ts / 86400)).1 / 1000),
       digitChar ((civilFromDays (ts / 86400)).1 / 100),
       digitChar ((civilFromDays (ts / 86400)).1 / 10),
       digitChar (civilFromDays (ts / 86400)).1,
       digitChar ((civilFromDays (ts / 86400)).2.1 / 10),
       digitChar (civilFromDays (ts / 86400)).2.1,
       digitChar ((civilFromDays (ts / 86400)).2.2 / 10),
       digitChar (civilFromDays (ts / 86400)).2.2,
       digitChar (ts % 86400 / 3600 / 10), digitChar (ts % 86400 / 3600),
       digitChar (ts % 86400 % 3600 / 60 / 10), digitChar (ts % 86400 % 3600 / 60),
       digitChar (ts % 86400 % 60 / 10), digitChar (ts % 86400 % 60)]).all Char.isDigit = true
  simp [digitChar_isDigit]

/-- No `isoformat` timestamp contains a comma. -/
theorem isoformat_no_comma (ts : Nat) : ',' ∉ (isoformat ts).data := by
  rw [isoformat_data]
  intro hm
  simp only [List.mem_cons, List.not_mem_nil, or_false] at hm
  rcases hm with h | h | h | h | h | h | h | h | h | h | h | h | h | h | h | h | h | h | h <;>
    first
      | exact digitChar_ne_comma _ h.symm
      | simp at h

/-- `matchBits` returns either a table character or the default. -/
theorem matchBits_ne_comma (mode : Nat) (table : List (Nat × Char)) (dflt : Char)
    (ht : ∀ pc ∈ table, pc.2 ≠ ',') (hd : dflt ≠ ',') :
    matchBits mode table dflt ≠ ',' := by
  induction table with
  | nil => exact hd
  | cons pc rest ih =>
    rw [matchBits]
    by_cases h : mode &&& pc.1 = pc.1
    · rw [if_pos h]
      exact ht pc (List.mem_cons_self pc rest)
    · rw [if_neg h]
      exact ih fun pc' hm => ht pc' (List.mem_cons_of_mem pc hm)

/-- No character of a `stat.filemode` string is a comma. -/
theorem filemode_no_comma (mode : Nat) : ',' ∉ (filemode mode).data := by
  intro hm
  simp only [filemode, filemodeChars, List.mem_cons, List.not_mem_nil, or_false] at hm
  rcases hm with h | h | h | h | h | h | h | h | h | h <;>
    exact matchBits_ne_comma mode _ _ (by intro pc hpc; fin_cases hpc <;> decide)
      (by decide) h.symm

/-- The nine columns of one record line, in emission order, as character
lists. -/
def lineColumns (p : FPath) (st : StatInfo) : List (List Char) :=
  [(isoformat st.mtime).data, (isoformat st.atime).data, (isoformat st.ctime).data,
   p.str.data, p.name.data, (natRepr st.size).data, (filemode st.mode).data,
   (natRepr st.uid).data, (natRepr st.gid).data]

/-- Columns joined by single commas. -/
def joinCols : List (List Char) → List Char
  | [] => []
  | [c] => c
  | c :: cs => c ++ ',' :: joinCols cs

/-- Splitting on commas recovers exactly the comma-free columns that were
joined. -/
theorem splitComma_joinCols (cols : List (List Char)) (hne : cols ≠ [])
    (h : ∀ c ∈ cols, ',' ∉ c) : splitComma (joinCols cols) = cols := by
  induction cols with
  | nil => exact absurd rfl hne
  | cons c cs ih =>
    cases cs with
    | nil =>
      rw [joinCols, splitComma_no_comma c (h c (List.mem_cons_self c []))]
    | cons c' cs' =>
      have hih : splitComma (joinCols (c' :: cs')) = c' :: cs' :=
        ih (fun hnil => List.noConfusion hnil)
          (fun x hx => h x (List.mem_cons_of_mem c hx))
      rw [joinCols, splitComma_append c _ (h c (List.mem_cons_self c _)), hih]
      exact fun hnil => List.noConfusion hnil

/-- The characters of one record line: the nine columns joined by commas,
then the terminating newline. -/
theorem output_string_data (p : FPath) (st : StatInfo) :
    (output_string (mkMetadata p st)).data = joinCols (lineColumns p st) ++ ['\n'] := by
  simp [output_string, mkMetadata, lineColumns, joinCols, String.data_append]

@[simp] theorem is_file_file (r : StatResult) : (FSEntry.file r).is_file = true := rfl

@[simp] theorem is_file_dir (b : Bool) (st : StatInfo) (cs : List (String × FSEntry)) :
    (FSEntry.dir b st cs).is_file = false := rfl

@[simp] theorem is_file_special (st : StatInfo) : (FSEntry.special st).is_file = false := rfl

@[simp] theorem is_file_symlink_some (st : StatInfo) :
    (FSEntry.symlink (some st)).is_file = true := rfl

@[simp] theorem is_file_symlink_none : (FSEntry.symlink none).is_file = false := rfl

/-- `rglob` enumeration distributes over sibling concatenation. -/
theorem rglobChildren_append (base : FPath) (l1 l2 : List (String × FSEntry)) :
    rglobChildren base (l1 ++ l2) = rglobChildren base l1 ++ rglobChildren base l2 := by
  induction l1 with
  | nil => simp [rglobChildren]
  | cons a l1' ih =>
    obtain ⟨n, e⟩ := a
    cases e with
    | file r => simp [rglobChildren, ih]
    | dir b st cs => cases b <;> simp [rglobChildren, ih]
    | special st => simp [rglobChildren, ih]
    | symlink t => simp [rglobChildren, ih]

/-- Non-recursive selection: the `is_file` entries of `iterdir`, by path. -/
theorem listChildren_files (base : FPath) (cs : List (String × FSEntry)) :
    ((listChildren base cs).filter fun pe => pe.2.is_file).map Prod.fst =
      (cs.filter fun c => c.2.is_file).map fun c => base ++ [c.1] := by
  induction cs with
  | nil => rfl
  | cons a cs' ih =>
    obtain ⟨n, e⟩ := a
    cases hf : e.is_file <;> simp [listChildren, List.filter, hf] <;>
      simpa [listChildren] using ih

/-- With every directory readable, the regular files selected from the
`rglob` enumeration are exactly the spec's "every regular file in the full
subtree", in order. -/
theorem rglob_files_spec (base : FPath) (cs : List (String × FSEntry))
    (h : allReadable cs = true) :
    ((rglobChildren base cs).filter fun pe => pe.2.is_file).map Prod.fst =
      subtreeFilePathsSpec base cs := by
  induction base, cs using rglobChildren.induct with
  | case1 base => simp [rglobChildren, subtreeFilePathsSpec]
  | case2 base n e rest ih1 ih2 =>
    cases e with
    | file r =>
      simp only [allReadable, Bool.true_and] at h
      simp [rglobChildren, subtreeFilePathsSpec, ih2 h]
    | dir r st cs' =>
      cases r with
      | false => simp [allReadable] at h
      | true =>
        simp only [allReadable, Bool.and_eq_true] at h
        simp only at ih1
        simp [rglobChildren, subtreeFilePathsSpec, ih1 h.1.2, ih2 h.2]
    | special st =>
      simp only [allReadable, Bool.true_and] at h
      simp [rglobChildren, subtreeFilePathsSpec, ih2 h]
    | symlink t =>
      simp only [allReadable, Bool.true_and] at h
      cases t <;> simp [rglobChildren, subtreeFilePathsSpec, ih2 h]

/-- Every subtree file path extends the base by a segment that names a
child. -/
theorem subtreeFilePathsSpec_mem (base : FPath) (cs : List (String × FSEntry)) (q : FPath)
    (hq : q ∈ subtreeFilePathsSpec base cs) :
    ∃ n t, q = base ++ n :: t ∧ n ∈ cs.map Prod.fst := by
  induction base, cs using subtreeFilePathsSpec.induct with
  | case1 base => simp [subtreeFilePathsSpec] at hq
  | case2 base n e rest ih1 ih2 =>
    have hsplit : q ∈ (if e.is_file then [base ++ [n]] else []) ∨
        q ∈ (match e with
          | FSEntry.dir _ _ cs => subtreeFilePathsSpec (base ++ [n]) cs
          | _ => []) ∨ q ∈ subtreeFilePathsSpec base rest := by
      cases e <;>
        simpa [subtreeFilePathsSpec, List.mem_append, or_assoc] using hq
    rcases hsplit with h1 | h1 | h1
    · refine ⟨n, [], ?_, by simp⟩
      cases hf : e.is_file <;> rw [hf] at h1 <;> simp at h1
      exact h1
    · cases e with
      | dir b st cs' =>
        simp only at ih1
        obtain ⟨n', t', hq', _⟩ := ih1 h1
        exact ⟨n, n' :: t', by simp [hq'], by simp⟩
      | file r => simp at h1
      | special st => simp at h1
      | symlink t => simp at h1
    · obtain ⟨n', t', hq', hn'⟩ := ih2 h1
      exact ⟨n', t', hq', by simp; right; simpa using hn'⟩

/-- A subtree path of a child named `n` and a subtree path whose first new
segment names a different sibling are distinct. -/
theorem base_ext_ne (base : FPath) (u v : List String) (hne : u ≠ v) :
    base ++ u ≠ base ++ v := fun h => hne (List.append_cancel_left h)

/-- On a well-formed forest the spec's subtree file paths are pairwise
distinct: every regular file appears exactly once. -/
theorem subtreeFilePathsSpec_nodup (base : FPath) (cs : List (String × FSEntry))
    (h : wellFormed cs = true) : (subtreeFilePathsSpec base cs).Nodup := by
  induction base, cs using subtreeFilePathsSpec.induct with
  | case1 base => simp [subtreeFilePathsSpec]
  | case2 base n e rest ih1 ih2 =>
    cases e with
    | file r =>
      simp only [wellFormed, Bool.and_eq_true] at h
      have hn : n ∉ rest.map Prod.fst := by
        have := h.1.1
        simpa using this
      simp only [subtreeFilePathsSpec, is_file_file, if_pos rfl]
      simp only [if_true, List.nil_append, List.singleton_append, List.nodup_cons]
      refine ⟨?_, ih2 h.2⟩
      intro hmem
      obtain ⟨n', t', hq', hn'⟩ := subtreeFilePathsSpec_mem base rest _ hmem
      have : ([n] : List String) = n' :: t' := List.append_cancel_left hq'
      have hn'' : n' = n := by injection this with h1 _; exact h1.symm
      exact hn (hn'' ▸ hn')
    | dir b st cs' =>
      simp only [wellFormed, Bool.and_eq_true] at h
      have hn : n ∉ rest.map Prod.fst := by
        have := h.1.1
        simpa using this
      simp only at ih1
      simp only [subtreeFilePathsSpec, is_file_dir, if_neg (by simp : ¬ false = true)]
      simp only [List.nil_append]
      refine List.Nodup.append (ih1 h.1.2) (ih2 h.2) ?_
      intro q hqB hqC
      obtain ⟨n1, t1, hq1, _⟩ := subtreeFilePathsSpec_mem (base ++ [n]) cs' q hqB
      obtain ⟨n2, t2, hq2, hn2⟩ := subtreeFilePathsSpec_mem base rest q hqC
      rw [hq1] at hq2
      rw [List.append_assoc] at hq2
      have : ([n] ++ n1 :: t1 : List String) = n2 :: t2 := List.append_cancel_left hq2
      have hn2n : n2 = n := by
        rw [List.singleton_append] at this
        injection this with h1 _
        exact h1.symm
      exact hn (hn2n ▸ hn2)
    | special st =>
      simp only [wellFormed, Bool.and_eq_true] at h
      simp only [subtreeFilePathsSpec, is_file_special, if_neg (by simp : ¬ false = true)]
      simpa using ih2 h.2
    | symlink t =>
      simp only [wellFormed, Bool.and_eq_true] at h
      have hn : n ∉ rest.map Prod.fst := by
        have := h.1.1
        simpa using this
      cases t with
      | none =>
        simp only [subtreeFilePathsSpec, is_file_symlink_none,
          if_neg (by simp : ¬ false = true)]
        simpa using ih2 h.2
      | some st =>
        simp only [subtreeFilePathsSpec, is_file_symlink_some, if_pos rfl]
        simp only [if_true, List.nil_append, List.singleton_append, List.nodup_cons]
        refine ⟨?_, ih2 h.2⟩
        intro hmem
        obtain ⟨n', t', hq', hn'⟩ := subtreeFilePathsSpec_mem base rest _ hmem
        have : ([n] : List String) = n' :: t' := List.append_cancel_left hq'
        have hn'' : n' = n := by injection this with h1 _; exact h1.symm
        exact hn (hn'' ▸ hn')

/-- Every line `process_file` emits is a record line. -/
theorem process_file_lines_records (p : FPath) (e : FSEntry) (toFile : Bool) (wf : WriteOracle) :
    ∀ l ∈ (process_file p e toFile wf).1, ∃ q si, l = output_string (mkMetadata q si) := by
  intro l hl
  cases hres : e.statRes with
  | ok st =>
    simp only [process_file, get_file_metadata, hres] at hl
    cases toFile with
    | true =>
      cases hwf : wf (output_string (mkMetadata p st)) with
      | some m => simp [hwf] at hl
      | none => simp [hwf] at hl; exact ⟨p, st, hl⟩
    | false =>
      cases hwf : wf (output_string (mkMetadata p st)) with
      | some m => simp [hwf] at hl
      | none => simp [hwf] at hl; exact ⟨p, st, hl⟩
  | notFound => simp only [process_file, get_file_metadata, hres] at hl; simp at hl
  | osError m => simp only [process_file, get_file_metadata, hres] at hl; simp at hl

/-- Every line the traversal loop emits is a record line. -/
theorem processSeq_lines_records (toFile : Bool) (wf : WriteOracle) :
    ∀ el : List (FPath × FSEntry), ∀ l ∈ (processSeq toFile wf el).lines,
      ∃ q si, l = output_string (mkMetadata q si)
  | [] => by intro l hl; simp [processSeq] at hl
  | (p, e) :: rest => by
    intro l hl
    rw [processSeq] at hl
    cases hf : e.is_file with
    | false =>
      rw [hf] at hl
      simp only [Bool.false_eq_true, if_false] at hl
      exact processSeq_lines_records toFile wf rest l hl
    | true =>
      rw [hf] at hl
      simp only [if_true] at hl
      cases hpf : process_file p e toFile wf with
      | mk ls rest' =>
        obtain ⟨lg, ex⟩ := rest'
        rw [hpf] at hl
        cases ex with
        | some ex' =>
          simp only at hl
          exact process_file_lines_records p e toFile wf l (by rw [hpf]; exact hl)
        | none =>
          simp only at hl
          rcases List.mem_append.mp hl with h1 | h1
          · exact process_file_lines_records p e toFile wf l (by rw [hpf]; exact h1)
          · exact processSeq_lines_records toFile wf rest l h1

/-- Every line `process_directory` emits is a record line. -/
theorem process_directory_lines_records (dirPath : FPath) (readable : Bool)
    (cs : List (String × FSEntry)) (recursive toFile : Bool) (wf : WriteOracle) :
    ∀ l ∈ (process_directory dirPath readable cs recursive toFile wf).lines,
      ∃ q si, l = output_string (mkMetadata q si) := by
  intro l hl
  unfold process_directory at hl
  cases recursive with
  | true =>
    simp only [if_true] at hl
    cases hx : (processSeq toFile wf (rglobRoot dirPath readable cs)).exc with
    | some ex =>
      cases ex with
      | osError m =>
        rw [hx] at hl
        exact processSeq_lines_records toFile wf _ l hl
    | none =>
      rw [hx] at hl
      exact processSeq_lines_records toFile wf _ l hl
  | false =>
    simp only [Bool.false_eq_true, if_false] at hl
    cases readable with
    | true =>
      simp only [if_true] at hl
      cases hx : (processSeq toFile wf (listChildren dirPath cs)).exc with
      | some ex =>
        cases ex with
        | osError m =>
          rw [hx] at hl
          exact processSeq_lines_records toFile wf _ l hl
      | none =>
        rw [hx] at hl
        exact processSeq_lines_records toFile wf _ l hl
    | false => simp at hl

/-- Every line a whole run emits is a record line: in particular no header
row is ever written. -/
theorem main_lines_records (w : World) (a : Args) :
    ∀ l ∈ (main w a).lines, ∃ q si, l = output_string (mkMetadata q si) := by
  intro l hl
  unfold main at hl
  cases hr : w.root with
  | none => simp only [hr] at hl; simp at hl
  | some root =>
    simp only [hr] at hl
    by_cases hex : root.pyExists = false
    · simp only [if_pos hex] at hl; simp at hl
    · simp only [if_neg hex] at hl
      by_cases ho : (a.useOutputFile && w.openFails) = true
      · simp only [if_pos ho] at hl; simp at hl
      · simp only [if_neg ho] at hl
        by_cases hf : root.is_file = true
        · simp only [if_pos hf] at hl
          rcases hpf : process_file w.rootPath root a.useOutputFile w.writeFails with ⟨ls, lg, ex⟩
          simp only [hpf] at hl
          exact process_file_lines_records w.rootPath root a.useOutputFile w.writeFails l
            (by rw [hpf]; exact hl)
        · simp only [if_neg hf] at hl
          cases root with
          | dir readable st cs =>
            simp only at hl
            exact process_directory_lines_records w.rootPath readable cs a.recursive
              a.useOutputFile w.writeFails l hl
          | file r => simp at hl
          | special st => simp at hl
          | symlink t => cases t <;> simp at hl

/-- The verbose flag only selects the logging level; every other observable
of the run is unchanged. -/
theorem main_verbose (w : World) (r o v : Bool) :
    main w ⟨r, o, v⟩ =
      { main w ⟨r, o, false⟩ with logLevel := if v then LogLevel.debug else LogLevel.info } := by
  unfold main
  cases w.root with
  | none => rfl
  | some root =>
    cases root with
    | file rr => cases o <;> cases hof : w.openFails <;> rfl
    | dir readable st cs => cases o <;> cases hof : w.openFails <;> rfl
    | special st => cases o <;> cases hof : w.openFails <;> rfl
    | symlink t => cases t <;> cases o <;> cases hof : w.openFails <;> rfl

/-- The name of a direct child path is its entry name. -/
theorem FPath.name_append (base : FPath) (n : String) : (base ++ [n] : FPath).name = n := by
  simp [FPath.name, List.getLastD_concat]

/-- A write oracle under which every write succeeds. -/
def wfNone : WriteOracle := fun _ => none

/-- A concrete stat result for witnesses. -/
def stA : StatInfo := ⟨100, 1700000000, 1700000001, 1700000002, 0o100644, 1000, 1000⟩

/-- C1 (confirmed): for every file path in a directory whose OS status fetch
fails — vanished before inspection (`FileNotFoundError`) or any other
`OSError` — the failure is logged at error level, no record line is produced
for that path, and processing continues with the next path: the run's lines
are exactly the records of the stat-successful regular files, so a directory
with one unreadable file still yields a record for every other readable
file. -/
theorem fv_C1 (base : FPath) (cs : List (String × FSEntry)) (toFile : Bool)
    (wf : WriteOracle) (hw : ∀ s, wf s = none) :
    ((process_directory base true cs false toFile wf).lines =
        ((listChildren base cs).filter fun pe => pe.2.is_file).flatMap fun pe =>
          recordOf pe.1 pe.2)
    ∧ ((process_directory base true cs false toFile wf).log =
        ((listChildren base cs).filter fun pe => pe.2.is_file).flatMap fun pe =>
          fileLog pe.1 pe.2)
    ∧ ∀ p e, (p, e) ∈ listChildren base cs → e.is_file = true → e.statOk = false →
        recordOf p e = [] ∧
          ∃ m, fileLog p e =
              ⟨.error, m⟩ :: [⟨.warning, "Could not process file: " ++ p.str⟩] ∧
            (⟨.error, m⟩ : LogEntry) ∈ (process_directory base true cs false toFile wf).log := by
  rw [process_directory_nonrec_noFail base cs toFile wf hw]
  refine ⟨rfl, rfl, ?_⟩
  intro p e hmem hf hnok
  have hfin : (p, e) ∈ (listChildren base cs).filter fun pe => pe.2.is_file :=
    List.mem_filter.mpr ⟨hmem, by simpa using hf⟩
  cases hres : e.statRes with
  | ok st => rw [FSEntry.statOk, hres] at hnok; simp at hnok
  | notFound =>
    refine ⟨by simp [recordOf, hres], "File not found: " ++ p.str,
      by simp [fileLog, hres], ?_⟩
    exact List.mem_flatMap.mpr ⟨(p, e), hfin, by simp [fileLog, hres]⟩
  | osError m =>
    refine ⟨by simp [recordOf, hres], "Error accessing file " ++ p.str ++ ": " ++ m,
      by simp [fileLog, hres], ?_⟩
    exact List.mem_flatMap.mpr ⟨(p, e), hfin, by simp [fileLog, hres]⟩

/-- Directory contents for the C1 witness: two readable files, one vanished
file and one file with an I/O error. -/
def csW1 : List (String × FSEntry) :=
  [("ok1", .file (.ok stA)), ("gone", .file .notFound),
   ("bad", .file (.osError "Input-output error")), ("ok2", .file (.ok stA))]

/-- Witness for C1 at a concrete directory. -/
theorem fv_C1_witness :
    (∀ s, wfNone s = none) ∧
      (((process_directory ["d"] true csW1 false false wfNone).lines =
          ((listChildren ["d"] csW1).filter fun pe => pe.2.is_file).flatMap fun pe =>
            recordOf pe.1 pe.2)
      ∧ ((process_directory ["d"] true csW1 false false wfNone).log =
          ((listChildren ["d"] csW1).filter fun pe => pe.2.is_file).flatMap fun pe =>
            fileLog pe.1 pe.2)
      ∧ ∀ p e, (p, e) ∈ listChildren ["d"] csW1 → e.is_file = true → e.statOk = false →
          recordOf p e = [] ∧
            ∃ m, fileLog p e =
                ⟨.error, m⟩ :: [⟨.warning, "Could not process file: " ++ p.str⟩] ∧
              (⟨.error, m⟩ : LogEntry) ∈ (process_directory ["d"] true csW1 false false wfNone).log) :=
  ⟨fun _ => rfl, fv_C1 ["d"] csW1 false wfNone (fun _ => rfl)⟩

/-- C2 (confirmed): with the recursive flag false exactly the regular-file
direct children of the root are processed; with it true every regular file of
the subtree is processed, exactly once on a well-formed readable tree; and
directories and other non-regular entries are excluded from processing
without producing any log entry (the log is generated by `is_file` entries
alone). -/
theorem fv_C2 (base : FPath) (cs : List (String × FSEntry)) (toFile : Bool)
    (wf : WriteOracle) (hw : ∀ s, wf s = none)
    (har : allReadable cs = true) (hwf : wellFormed cs = true) :
    ((process_directory base true cs false toFile wf).processed =
        (cs.filter fun c => c.2.is_file).map fun c => base ++ [c.1])
    ∧ ((process_directory base true cs true toFile wf).processed =
        subtreeFilePathsSpec base cs)
    ∧ (subtreeFilePathsSpec base cs).Nodup
    ∧ ((process_directory base true cs false toFile wf).log =
        ((listChildren base cs).filter fun pe => pe.2.is_file).flatMap fun pe =>
          fileLog pe.1 pe.2)
    ∧ ((process_directory base true cs true toFile wf).log =
        ((rglobChildren base cs).filter fun pe => pe.2.is_file).flatMap fun pe =>
          fileLog pe.1 pe.2) := by
  refine ⟨?_, ?_, subtreeFilePathsSpec_nodup base cs hwf, ?_, ?_⟩
  · rw [process_directory_nonrec_noFail base cs toFile wf hw]
    exact listChildren_files base cs
  · rw [process_directory_rec_noFail base cs toFile wf hw]
    exact rglob_files_spec base cs har
  · rw [process_directory_nonrec_noFail base cs toFile wf hw]
  · rw [process_directory_rec_noFail base cs toFile wf hw]

/-- Directory contents for the C2 witness: the spec's own example, files
`A`, `B` and a subdirectory `S` containing `C`. -/
def csW2 : List (String × FSEntry) :=
  [("A", .file (.ok stA)), ("B", .file (.ok stA)),
   ("S", .dir true stA [("C", .file (.ok stA))])]

/-- Witness for C2 at the spec's example tree. -/
theorem fv_C2_witness :
    ((∀ s, wfNone s = none) ∧ allReadable csW2 = true ∧ wellFormed csW2 = true) ∧
      (((process_directory ["D"] true csW2 false false wfNone).processed =
          (csW2.filter fun c => c.2.is_file).map fun c => ["D"] ++ [c.1])
      ∧ ((process_directory ["D"] true csW2 true false wfNone).processed =
          subtreeFilePathsSpec ["D"] csW2)
      ∧ (subtreeFilePathsSpec ["D"] csW2).Nodup
      ∧ ((process_directory ["D"] true csW2 false false wfNone).log =
          ((listChildren ["D"] csW2).filter fun pe => pe.2.is_file).flatMap fun pe =>
            fileLog pe.1 pe.2)
      ∧ ((process_directory ["D"] true csW2 true false wfNone).log =
          ((rglobChildren ["D"] csW2).filter fun pe => pe.2.is_file).flatMap fun pe =>
            fileLog pe.1 pe.2)) :=
  ⟨⟨fun _ => rfl, by simp [allReadable, csW2], by simp [wellFormed, csW2]⟩,
    fv_C2 ["D"] csW2 false wfNone (fun _ => rfl) (by simp [allReadable, csW2])
      (by simp [wellFormed, csW2])⟩

/-- C10 (confirmed): in directory traversal a symlink to a regular file is
selected for processing and its record carries the link's own path and name
together with the target's stat metadata, while a dangling symlink is
silently excluded: it is neither processed nor mentioned in any log entry. -/
theorem fv_C10 (base : FPath) (na nb : String) (st : StatInfo)
    (l1 l2 : List (String × FSEntry)) (toFile : Bool) (wf : WriteOracle)
    (hw : ∀ s, wf s = none) :
    ((process_directory base true
        (l1 ++ (na, .symlink (some st)) :: (nb, .symlink none) :: l2) false toFile wf).processed =
        (((listChildren base l1).filter fun pe => pe.2.is_file).map Prod.fst) ++
          (base ++ [na]) :: (((listChildren base l2).filter fun pe => pe.2.is_file).map Prod.fst))
    ∧ ((process_directory base true
        (l1 ++ (na, .symlink (some st)) :: (nb, .symlink none) :: l2) false toFile wf).lines =
        (((listChildren base l1).filter fun pe => pe.2.is_file).flatMap fun pe =>
          recordOf pe.1 pe.2) ++
          output_string (mkMetadata (base ++ [na]) st) ::
            (((listChildren base l2).filter fun pe => pe.2.is_file).flatMap fun pe =>
              recordOf pe.1 pe.2))
    ∧ ((process_directory base true
        (l1 ++ (na, .symlink (some st)) :: (nb, .symlink none) :: l2) false toFile wf).log =
        (((listChildren base l1).filter fun pe => pe.2.is_file).flatMap fun pe =>
          fileLog pe.1 pe.2) ++
          (((listChildren base l2).filter fun pe => pe.2.is_file).flatMap fun pe =>
            fileLog pe.1 pe.2))
    ∧ (mkMetadata (base ++ [na]) st).file_path = (base ++ [na] : FPath).str
    ∧ (mkMetadata (base ++ [na]) st).file_name = na
    ∧ (mkMetadata (base ++ [na]) st).file_size = st.size
    ∧ (mkMetadata (base ++ [na]) st).modified_time = isoformat st.mtime
    ∧ (mkMetadata (base ++ [na]) st).accessed_time = isoformat st.atime
    ∧ (mkMetadata (base ++ [na]) st).created_time = isoformat st.ctime
    ∧ (mkMetadata (base ++ [na]) st).permissions = filemode st.mode
    ∧ (mkMetadata (base ++ [na]) st).owner_uid = st.uid
    ∧ (mkMetadata (base ++ [na]) st).owner_gid = st.gid := by
  rw [process_directory_nonrec_noFail base _ toFile wf hw]
  have hlc : listChildren base (l1 ++ (na, FSEntry.symlink (some st)) :: (nb, FSEntry.symlink none) :: l2) =
      listChildren base l1 ++ (base ++ [na], FSEntry.symlink (some st)) ::
        (base ++ [nb], FSEntry.symlink none) :: listChildren base l2 := by
    simp [listChildren]
  rw [hlc]
  refine ⟨?_, ?_, ?_, rfl, FPath.name_append base na, rfl, rfl, rfl, rfl, rfl, rfl, rfl⟩ <;>
    simp [List.filter_append, List.filter_cons, recordOf, fileLog, FSEntry.statRes]

/-- Witness for C10: a directory with one ordinary file, a symlink to a
regular file, a dangling symlink, and another ordinary file. -/
theorem fv_C10_witness :
    (∀ s, wfNone s = none) ∧
      (((process_directory ["d"] true
          ([("a", .file (.ok stA))] ++ ("link", .symlink (some stA)) ::
            ("dangling", .symlink none) :: [("z", .file (.ok stA))]) false false wfNone).processed =
          (((listChildren ["d"] [("a", .file (.ok stA))]).filter fun pe => pe.2.is_file).map Prod.fst) ++
            (["d"] ++ ["link"]) ::
              (((listChildren ["d"] [("z", .file (.ok stA))]).filter fun pe => pe.2.is_file).map Prod.fst))
      ∧ ((process_directory ["d"] true
          ([("a", .file (.ok stA))] ++ ("link", .symlink (some stA)) ::
            ("dangling", .symlink none) :: [("z", .file (.ok stA))]) false false wfNone).lines =
          (((listChildren ["d"] [("a", .file (.ok stA))]).filter fun pe => pe.2.is_file).flatMap fun pe =>
            recordOf pe.1 pe.2) ++
            output_string (mkMetadata (["d"] ++ ["link"]) stA) ::
              (((listChildren ["d"] [("z", .file (.ok stA))]).filter fun pe => pe.2.is_file).flatMap fun pe =>
                recordOf pe.1 pe.2))
      ∧ ((process_directory ["d"] true
          ([("a", .file (.ok stA))] ++ ("link", .symlink (some stA)) ::
            ("dangling", .symlink none) :: [("z", .file (.ok stA))]) false false wfNone).log =
          (((listChildren ["d"] [("a", .file (.ok stA))]).filter fun pe => pe.2.is_file).flatMap fun pe =>
            fileLog pe.1 pe.2) ++
            (((listChildren ["d"] [("z", .file (.ok stA))]).filter fun pe => pe.2.is_file).flatMap fun pe =>
              fileLog pe.1 pe.2))
      ∧ (mkMetadata (["d"] ++ ["link"]) stA).file_path = FPath.str (["d"] ++ ["link"])
      ∧ (mkMetadata (["d"] ++ ["link"]) stA).file_name = "link"
      ∧ (mkMetadata (["d"] ++ ["link"]) stA).file_size = stA.size
      ∧ (mkMetadata (["d"] ++ ["link"]) stA).modified_time = isoformat stA.mtime
      ∧ (mkMetadata (["d"] ++ ["link"]) stA).accessed_time = isoformat stA.atime
      ∧ (mkMetadata (["d"] ++ ["link"]) stA).created_time = isoformat stA.ctime
      ∧ (mkMetadata (["d"] ++ ["link"]) stA).permissions = filemode stA.mode
      ∧ (mkMetadata (["d"] ++ ["link"]) stA).owner_uid = stA.uid
      ∧ (mkMetadata (["d"] ++ ["link"]) stA).owner_gid = stA.gid) :=
  ⟨fun _ => rfl,
    fv_C10 ["d"] "link" "dangling" stA [("a", .file (.ok stA))] [("z", .file (.ok stA))]
      false wfNone (fun _ => rfl)⟩

/-- C3 (confirmed): a successfully extracted record is emitted as exactly one
line, the nine fields joined by commas in the order modified, accessed,
created, path, name, size, permissions, uid, gid, terminated by a newline;
and every line any run ever emits is such a record line, so no header row is
ever emitted. -/
theorem fv_C3 (p : FPath) (e : FSEntry) (st : StatInfo) (toFile : Bool) (wf : WriteOracle)
    (hst : e.statRes = .ok st) (hw : wf (output_string (mkMetadata p st)) = none) :
    (process_file p e toFile wf).1 =
        [String.intercalate ","
            [isoformat st.mtime, isoformat st.atime, isoformat st.ctime, p.str, p.name,
             natRepr st.size, filemode st.mode, natRepr st.uid, natRepr st.gid] ++ "\n"]
    ∧ (process_file p e toFile wf).1.length = 1
    ∧ (∀ w a, ∀ l ∈ (main w a).lines, ∃ q si, l = output_string (mkMetadata q si)) := by
  have h1 : process_file p e toFile wf = ([output_string (mkMetadata p st)], [], none) := by
    simp only [process_file, get_file_metadata, hst]
    cases toFile <;> simp [hw]
  rw [h1]
  exact ⟨rfl, rfl, main_lines_records⟩

/-- Witness for C3 at a concrete file. -/
theorem fv_C3_witness :
    ((FSEntry.file (.ok stA)).statRes = .ok stA ∧
        wfNone (output_string (mkMetadata ["f.txt"] stA)) = none) ∧
      ((process_file ["f.txt"] (.file (.ok stA)) false wfNone).1 =
          [String.intercalate ","
              [isoformat stA.mtime, isoformat stA.atime, isoformat stA.ctime,
               FPath.str ["f.txt"], FPath.name ["f.txt"], natRepr stA.size,
               filemode stA.mode, natRepr stA.uid, natRepr stA.gid] ++ "\n"]
      ∧ (process_file ["f.txt"] (.file (.ok stA)) false wfNone).1.length = 1
      ∧ (∀ w a, ∀ l ∈ (main w a).lines, ∃ q si, l = output_string (mkMetadata q si))) :=
  ⟨⟨rfl, rfl⟩, fv_C3 ["f.txt"] (.file (.ok stA)) stA false wfNone rfl rfl⟩

/-- C7 (corrected): provided `file_path` and `file_name` contain no comma,
every emitted record line is the nine columns joined by single commas,
terminated by a newline, so it splits into exactly 9 comma-separated columns,
and its three timestamp columns parse as dates.  A comma inside the path
breaks the 9-column invariant (see the counterexample): the format leaves
commas unescaped. -/
theorem fv_C7 (p : FPath) (st : StatInfo)
    (hp : ',' ∉ p.str.data) (hn : ',' ∉ p.name.data) :
    (output_string (mkMetadata p st)).data = joinCols (lineColumns p st) ++ ['\n']
    ∧ splitComma (joinCols (lineColumns p st)) = lineColumns p st
    ∧ (lineColumns p st).length = 9
    ∧ isIsoDateTimeChars (isoformat st.mtime).data = true
    ∧ isIsoDateTimeChars (isoformat st.atime).data = true
    ∧ isIsoDateTimeChars (isoformat st.ctime).data = true := by
  refine ⟨output_string_data p st, ?_, rfl, isoformat_isIso _, isoformat_isIso _,
    isoformat_isIso _⟩
  refine splitComma_joinCols _ (by simp [lineColumns]) ?_
  intro c hc
  simp only [lineColumns, List.mem_cons, List.not_mem_nil, or_false] at hc
  rcases hc with h | h | h | h | h | h | h | h | h <;> subst h
  · exact isoformat_no_comma _
  · exact isoformat_no_comma _
  · exact isoformat_no_comma _
  · exact hp
  · exact hn
  · exact natRepr_no_comma _
  · exact filemode_no_comma _
  · exact natRepr_no_comma _
  · exact natRepr_no_comma _

/-- Witness for C7 at a comma-free concrete path. -/
theorem fv_C7_witness :
    (',' ∉ (FPath.str ["f.txt"]).data ∧ ',' ∉ (FPath.name ["f.txt"]).data) ∧
      ((output_string (mkMetadata ["f.txt"] stA)).data =
          joinCols (lineColumns ["f.txt"] stA) ++ ['\n']
      ∧ splitComma (joinCols (lineColumns ["f.txt"] stA)) = lineColumns ["f.txt"] stA
      ∧ (lineColumns ["f.txt"] stA).length = 9
      ∧ isIsoDateTimeChars (isoformat stA.mtime).data = true
      ∧ isIsoDateTimeChars (isoformat stA.atime).data = true
      ∧ isIsoDateTimeChars (isoformat stA.ctime).data = true) :=
  ⟨⟨by decide, by decide⟩, fv_C7 ["f.txt"] stA (by decide) (by decide)⟩

/-- Counterexample for C7: a file whose path and name contain a comma
produces a line that splits into 11 comma-separated columns, not 9, on an
otherwise ordinary record. -/
theorem fv_C7_counterexample :
    ',' ∈ (FPath.str ["a,b"]).data ∧
      (splitComma (output_string (mkMetadata ["a,b"] stA)).data.dropLast).length = 11 := by
  constructor <;> decide

/-- C5 (corrected): an unlistable directory is absorbed without aborting
anything, but only the non-recursive path logs it.  Non-recursively,
`iterdir` raises, the handler logs a single directory-level error and that
enumeration ends, the call returning normally (so sibling traversals are
unaffected).  Recursively, `rglob` swallows the `PermissionError`: an
unreadable root yields nothing and logs nothing, and an unreadable
subdirectory is skipped silently — no error is logged — while every
remaining item is still processed. -/
theorem fv_C5 (base : FPath) (n : String) (st : StatInfo)
    (cs cs' l1 l2 : List (String × FSEntry)) (toFile : Bool) (wf : WriteOracle)
    (hw : ∀ s, wf s = none) :
    (process_directory base false cs false toFile wf =
        ⟨[], [], [dirErrorLog base permissionMsg]⟩)
    ∧ (process_directory base false cs true toFile wf = ⟨[], [], []⟩)
    ∧ (process_directory base true (l1 ++ (n, .dir false st cs') :: l2) true toFile wf =
        ⟨(process_directory base true l1 true toFile wf).processed ++
            (process_directory base true l2 true toFile wf).processed,
          (process_directory base true l1 true toFile wf).lines ++
            (process_directory base true l2 true toFile wf).lines,
          (process_directory base true l1 true toFile wf).log ++
            (process_directory base true l2 true toFile wf).log⟩) := by
  refine ⟨rfl, rfl, ?_⟩
  rw [process_directory_rec_noFail base _ toFile wf hw,
    process_directory_rec_noFail base l1 toFile wf hw,
    process_directory_rec_noFail base l2 toFile wf hw]
  have hrg : rglobChildren base (l1 ++ (n, FSEntry.dir false st cs') :: l2) =
      rglobChildren base l1 ++
        (base ++ [n], FSEntry.dir false st cs') :: rglobChildren base l2 := by
    rw [rglobChildren_append]
    congr 1
    simp [rglobChildren]
  rw [hrg]
  simp [List.filter_append, List.filter_cons]

/-- Witness for C5 at concrete trees. -/
theorem fv_C5_witness :
    (∀ s, wfNone s = none) ∧
      ((process_directory ["d"] false [("x", .file (.ok stA))] false false wfNone =
          ⟨[], [], [dirErrorLog ["d"] permissionMsg]⟩)
      ∧ (process_directory ["d"] false [("x", .file (.ok stA))] true false wfNone =
          ⟨[], [], []⟩)
      ∧ (process_directory ["d"] true
            ([("a", .file (.ok stA))] ++
              ("s", .dir false stA [("c", .file (.ok stA))]) :: [("b", .file (.ok stA))])
            true false wfNone =
          ⟨(process_directory ["d"] true [("a", .file (.ok stA))] true false wfNone).processed ++
              (process_directory ["d"] true [("b", .file (.ok stA))] true false wfNone).processed,
            (process_directory ["d"] true [("a", .file (.ok stA))] true false wfNone).lines ++
              (process_directory ["d"] true [("b", .file (.ok stA))] true false wfNone).lines,
            (process_directory ["d"] true [("a", .file (.ok stA))] true false wfNone).log ++
              (process_directory ["d"] true [("b", .file (.ok stA))] true false wfNone).log⟩)) :=
  ⟨fun _ => rfl,
    fv_C5 ["d"] "s" stA [("x", .file (.ok stA))] [("c", .file (.ok stA))]
      [("a", .file (.ok stA))] [("b", .file (.ok stA))] false wfNone (fun _ => rfl)⟩

/-- Counterexample for C5: a recursive run over a directory containing an
unreadable subdirectory logs no error whatsoever for it — the log is empty —
even though the sibling file is still processed. -/
theorem fv_C5_counterexample :
    (process_directory ["d"] true
        [("s", .dir false stA [("c", .file (.ok stA))]), ("b", .file (.ok stA))]
        true false wfNone).log = [] ∧
      (process_directory ["d"] true
        [("s", .dir false stA [("c", .file (.ok stA))]), ("b", .file (.ok stA))]
        true false wfNone).processed = [["d", "b"]] := by
  rw [process_directory_rec_noFail ["d"]
    [("s", FSEntry.dir false stA [("c", FSEntry.file (.ok stA))]),
     ("b", FSEntry.file (.ok stA))] false wfNone (fun _ => rfl)]
  have hrg : rglobChildren ["d"]
      [("s", FSEntry.dir false stA [("c", FSEntry.file (.ok stA))]),
       ("b", FSEntry.file (.ok stA))] =
      [(["d", "s"], FSEntry.dir false stA [("c", FSEntry.file (.ok stA))]),
       (["d", "b"], FSEntry.file (.ok stA))] := by
    simp [rglobChildren]
  rw [hrg]
  constructor <;> rfl

/-- C6 (corrected): the best-effort write policy holds for the output-file
sink only.  Writing to the output file: the error is caught, logged, the
record dropped, and the loop continues with the remaining files.  Writing to
stdout: the bare `print` lets the `OSError` escape `process_file`; in a
directory run the directory-level `except OSError` catches it, logging a
directory access error and abandoning the remaining traversal. -/
theorem fv_C6 (p : FPath) (e : FSEntry) (st : StatInfo) (m : String) (wf : WriteOracle)
    (rest : List (FPath × FSEntry)) (dirPath : FPath) (n : String)
    (cs : List (String × FSEntry))
    (hst : e.statRes = .ok st) (hf : e.is_file = true)
    (hm : wf (output_string (mkMetadata p st)) = some m)
    (hm2 : wf (output_string (mkMetadata (dirPath ++ [n]) st)) = some m) :
    (process_file p e true wf =
        ([], [⟨.error, "Error writing to output file: " ++ m⟩], none))
    ∧ (processSeq true wf ((p, e) :: rest) =
        ⟨p :: (processSeq true wf rest).processed,
         (processSeq true wf rest).lines,
         ⟨.error, "Error writing to output file: " ++ m⟩ :: (processSeq true wf rest).log,
         (processSeq true wf rest).exc⟩)
    ∧ (process_file p e false wf = ([], [], some (.osError m)))
    ∧ (processSeq false wf ((p, e) :: rest) = ⟨[p], [], [], some (.osError m)⟩)
    ∧ (process_directory dirPath true ((n, e) :: cs) false false wf =
        ⟨[dirPath ++ [n]], [], [dirErrorLog dirPath m]⟩) := by
  have hA : process_file p e true wf =
      ([], [⟨.error, "Error writing to output file: " ++ m⟩], none) := by
    simp only [process_file, get_file_metadata, hst]
    simp [hm]
  have hC : process_file p e false wf = ([], [], some (.osError m)) := by
    simp only [process_file, get_file_metadata, hst]
    simp [hm]
  have hC2 : process_file (dirPath ++ [n]) e false wf = ([], [], some (.osError m)) := by
    simp only [process_file, get_file_metadata, hst]
    simp [hm2]
  refine ⟨hA, ?_, hC, ?_, ?_⟩
  · rw [processSeq, hf]
    simp only [if_true, hA]
    simp
  · rw [processSeq, hf]
    simp only [if_true, hC]
  · have hlc : listChildren dirPath ((n, e) :: cs) =
        (dirPath ++ [n], e) :: listChildren dirPath cs := by
      simp [listChildren]
    unfold process_directory
    rw [hlc, processSeq, hf]
    simp only [if_true, hC2]
    simp

/-- A write oracle under which every write raises `Broken pipe`. -/
def wfPipe : WriteOracle := fun _ => some "Broken pipe"

/-- Witness for C6 at a concrete file and directory. -/
theorem fv_C6_witness :
    ((FSEntry.file (.ok stA)).statRes = .ok stA ∧
        (FSEntry.file (.ok stA)).is_file = true ∧
        wfPipe (output_string (mkMetadata ["f.txt"] stA)) = some "Broken pipe" ∧
        wfPipe (output_string (mkMetadata (["d"] ++ ["a"]) stA)) = some "Broken pipe") ∧
      ((process_file ["f.txt"] (.file (.ok stA)) true wfPipe =
          ([], [⟨.error, "Error writing to output file: " ++ "Broken pipe"⟩], none))
      ∧ (processSeq true wfPipe ((["f.txt"], .file (.ok stA)) :: [(["g.txt"], .file (.ok stA))]) =
          ⟨["f.txt"] :: (processSeq true wfPipe [(["g.txt"], .file (.ok stA))]).processed,
           (processSeq true wfPipe [(["g.txt"], .file (.ok stA))]).lines,
           ⟨.error, "Error writing to output file: " ++ "Broken pipe"⟩ ::
             (processSeq true wfPipe [(["g.txt"], .file (.ok stA))]).log,
           (processSeq true wfPipe [(["g.txt"], .file (.ok stA))]).exc⟩)
      ∧ (process_file ["f.txt"] (.file (.ok stA)) false wfPipe =
          ([], [], some (.osError "Broken pipe")))
      ∧ (processSeq false wfPipe ((["f.txt"], .file (.ok stA)) :: [(["g.txt"], .file (.ok stA))]) =
          ⟨[["f.txt"]], [], [], some (.osError "Broken pipe")⟩)
      ∧ (process_directory ["d"] true (("a", .file (.ok stA)) :: [("b", .file (.ok stA))])
            false false wfPipe =
          ⟨[["d"] ++ ["a"]], [], [dirErrorLog ["d"] "Broken pipe"]⟩)) :=
  ⟨⟨rfl, rfl, rfl, rfl⟩,
    fv_C6 ["f.txt"] (.file (.ok stA)) stA "Broken pipe" wfPipe
      [(["g.txt"], .file (.ok stA))] ["d"] "a" [("b", .file (.ok stA))] rfl rfl rfl rfl⟩

/-- Counterexample for C6: with the stdout sink, a write error on the first
record is not logged as a write error and the run does not continue — the
second file is never processed and the only log entry is the directory-level
access error. -/
theorem fv_C6_counterexample :
    (process_directory ["d"] true [("a", .file (.ok stA)), ("b", .file (.ok stA))]
        false false wfPipe).processed = [["d", "a"]] ∧
      (process_directory ["d"] true [("a", .file (.ok stA)), ("b", .file (.ok stA))]
        false false wfPipe).lines = [] ∧
      (process_directory ["d"] true [("a", .file (.ok stA)), ("b", .file (.ok stA))]
        false false wfPipe).log = [dirErrorLog ["d"] "Broken pipe"] := by
  refine ⟨?_, ?_, ?_⟩ <;> rfl

/-- Whether the root entry exists but is neither a regular file nor a
directory — the `Invalid path type` early return of `main`. -/
def rootInvalidType (w : World) : Bool :=
  match w.root with
  | some (.special _) => true
  | _ => false

/-- The paths a completed run passes to `process_file`, by root shape, when
no write error interrupts the traversal. -/
def mainProcessedSpec (w : World) (a : Args) : List FPath :=
  match w.root with
  | some (.dir readable _ cs) =>
    ((if a.recursive then rglobRoot w.rootPath readable cs
      else if readable then listChildren w.rootPath cs else []).filter
        fun pe => pe.2.is_file).map Prod.fst
  | some _ => [w.rootPath]
  | none => []

/-- The run ends in an early return exactly on the three validation
failures. -/
theorem main_abort_iff (w : World) (a : Args) :
    (main w a).phase ≠ Phase.completed ↔
      (rootExists w = false ∨ (a.useOutputFile = true ∧ w.openFails = true) ∨
        rootInvalidType w = true) := by
  obtain ⟨rp, root, ofl, wfo⟩ := w
  obtain ⟨ar, ao, av⟩ := a
  cases root with
  | none => simp [main, rootExists, rootInvalidType]
  | some e =>
    cases e with
    | file r =>
      cases ao <;> cases ofl <;>
        simp [main, rootExists, rootInvalidType, FSEntry.pyExists, FSEntry.is_file]
    | dir readable st cs =>
      cases ao <;> cases ofl <;>
        simp [main, rootExists, rootInvalidType, FSEntry.pyExists, FSEntry.is_file]
    | special st =>
      cases ao <;> cases ofl <;>
        simp [main, rootExists, rootInvalidType, FSEntry.pyExists, FSEntry.is_file]
    | symlink t =>
      cases t <;> cases ao <;> cases ofl <;>
        simp [main, rootExists, rootInvalidType, FSEntry.pyExists, FSEntry.is_file]

/-- An early return produces no output line, processes nothing and lets no
exception escape. -/
theorem main_abort_empty (w : World) (a : Args)
    (h : (main w a).phase ≠ Phase.completed) :
    (main w a).lines = [] ∧ (main w a).processed = [] ∧ (main w a).exc = none := by
  obtain ⟨rp, root, ofl, wfo⟩ := w
  obtain ⟨ar, ao, av⟩ := a
  cases root with
  | none => simp [main]
  | some e =>
    cases e with
    | file r =>
      cases ao <;> cases ofl <;> simp [main, FSEntry.pyExists, FSEntry.is_file] <;>
        simp [main, FSEntry.pyExists, FSEntry.is_file, Phase] at h
    | dir readable st cs =>
      cases ao <;> cases ofl <;> simp [main, FSEntry.pyExists, FSEntry.is_file] <;>
        simp [main, FSEntry.pyExists, FSEntry.is_file, Phase] at h
    | special st =>
      cases ao <;> cases ofl <;> simp [main, FSEntry.pyExists, FSEntry.is_file]
    | symlink t =>
      cases t <;> cases ao <;> cases ofl <;>
        simp [main, FSEntry.pyExists, FSEntry.is_file] <;>
        simp [main, FSEntry.pyExists, FSEntry.is_file, Phase] at h

/-- A completed run with no write failure processed exactly the reachable
items of its root. -/
theorem main_completed_processed (w : World) (a : Args)
    (hw : ∀ s, w.writeFails s = none) (h : (main w a).phase = Phase.completed) :
    (main w a).processed = mainProcessedSpec w a := by
  obtain ⟨rp, root, ofl, wfo⟩ := w
  obtain ⟨ar, ao, av⟩ := a
  cases root with
  | none => simp [main, Phase] at h
  | some e =>
    cases e with
    | file r =>
      cases ao <;> cases ofl <;>
        simp [main, mainProcessedSpec, FSEntry.pyExists, FSEntry.is_file]
      simp [main, FSEntry.pyExists, FSEntry.is_file, Phase] at h
    | dir readable st cs =>
      cases readable with
      | true =>
        cases ao with
        | false =>
          have hm : (main ⟨rp, some (.dir true st cs), ofl, wfo⟩ ⟨ar, false, av⟩).processed =
              (process_directory rp true cs ar false wfo).processed := rfl
          rw [hm]
          cases har : ar with
          | true =>
            rw [process_directory_rec_noFail rp cs false wfo hw]
            simp [mainProcessedSpec, rglobRoot]
          | false =>
            rw [process_directory_nonrec_noFail rp cs false wfo hw]
            simp [mainProcessedSpec]
        | true =>
          cases ofl with
          | true =>
            have hph : (main ⟨rp, some (.dir true st cs), true, wfo⟩ ⟨ar, true, av⟩).phase =
                Phase.abortedOutputOpen := rfl
            rw [hph] at h
            exact Phase.noConfusion h
          | false =>
            have hm : (main ⟨rp, some (.dir true st cs), false, wfo⟩ ⟨ar, true, av⟩).processed =
                (process_directory rp true cs ar true wfo).processed := rfl
            rw [hm]
            cases har : ar with
            | true =>
              rw [process_directory_rec_noFail rp cs true wfo hw]
              simp [mainProcessedSpec, rglobRoot]
            | false =>
              rw [process_directory_nonrec_noFail rp cs true wfo hw]
              simp [mainProcessedSpec]
      | false =>
        cases har : ar <;> cases ao <;> cases ofl <;>
          simp [main, mainProcessedSpec, FSEntry.pyExists, FSEntry.is_file,
            FSEntry.is_dir, process_directory_nonrec_unreadable,
            process_directory_rec_unreadable, rglobRoot]
    | special st =>
      cases ao <;> cases ofl <;>
        simp [main, FSEntry.pyExists, FSEntry.is_file, Phase] at h
    | symlink t =>
      cases t <;> cases ao <;> cases ofl <;>
        simp [main, mainProcessedSpec, FSEntry.pyExists, FSEntry.is_file] <;>
        simp [main, FSEntry.pyExists, FSEntry.is_file, Phase] at h

/-- C4 (corrected): the run aborts before any per-file processing — zero
output lines, nothing processed, no exception escaping — exactly when the
root path does not exist, the output file cannot be opened for writing, or
the root exists but is neither a regular file nor a directory (the
`Invalid path type` early return the original claim omitted); in every other
case the run completes, and with no write failure it processes exactly the
reachable items of the root. -/
theorem fv_C4 (w : World) (a : Args) (hw : ∀ s, w.writeFails s = none) :
    ((main w a).phase ≠ Phase.completed ↔
      (rootExists w = false ∨ (a.useOutputFile = true ∧ w.openFails = true) ∨
        rootInvalidType w = true))
    ∧ ((main w a).phase ≠ Phase.completed →
        (main w a).lines = [] ∧ (main w a).processed = [] ∧ (main w a).exc = none)
    ∧ ((main w a).phase = Phase.completed →
        (main w a).processed = mainProcessedSpec w a) :=
  ⟨main_abort_iff w a, main_abort_empty w a, main_completed_processed w a hw⟩

/-- Witness world for C4: an existing single-file root, stdout sink. -/
def wW4 : World := ⟨["f.txt"], some (.file (.ok stA)), false, wfNone⟩

/-- Witness arguments for C4. -/
def aW4 : Args := ⟨false, false, false⟩

/-- Witness for C4 at a concrete run. -/
theorem fv_C4_witness :
    (∀ s, wW4.writeFails s = none) ∧
      (((main wW4 aW4).phase ≠ Phase.completed ↔
        (rootExists wW4 = false ∨ (aW4.useOutputFile = true ∧ wW4.openFails = true) ∨
          rootInvalidType wW4 = true))
      ∧ ((main wW4 aW4).phase ≠ Phase.completed →
          (main wW4 aW4).lines = [] ∧ (main wW4 aW4).processed = [] ∧
            (main wW4 aW4).exc = none)
      ∧ ((main wW4 aW4).phase = Phase.completed →
          (main wW4 aW4).processed = mainProcessedSpec wW4 aW4)) :=
  ⟨fun _ => rfl, fv_C4 wW4 aW4 (fun _ => rfl)⟩

/-- Counterexample world for C4: the root exists but is a socket-like special
entry. -/
def wSpecial : World := ⟨["sock"], some (.special stA), false, wfNone⟩

/-- Counterexample for C4: with an existing special root and a perfectly
openable output destination, the run still aborts before any per-file
processing — a third abort condition beyond the two the claim names. -/
theorem fv_C4_counterexample :
    (main wSpecial ⟨false, false, false⟩).phase = Phase.abortedInvalidType ∧
      rootExists wSpecial = true ∧ wSpecial.openFails = false ∧
      (main wSpecial ⟨false, false, false⟩).lines = [] ∧
      (main wSpecial ⟨false, false, false⟩).processed = [] := by
  refine ⟨rfl, rfl, rfl, rfl, rfl⟩

/-- C8 (confirmed): running with the verbose flag set produces exactly the
same run — records, output lines, logs, lifecycle, everything observable —
as running without it, except that the logging level field is `debug`
instead of `info`. -/
theorem fv_C8 (w : World) (r o : Bool) :
    main w ⟨r, o, true⟩ = { main w ⟨r, o, false⟩ with logLevel := LogLevel.debug } :=
  main_verbose w r o true

/-- C9 (confirmed): in every run the output-file handle events are either
none at all or exactly one acquisition followed by one release — also on the
early and fatal exit paths — so the handle is never leaked and never
double-closed. -/
theorem fv_C9 (w : World) (a : Args) :
    (main w a).handleEvents = [] ∨
      (main w a).handleEvents = [HEvent.opened, HEvent.closed] := by
  obtain ⟨rp, root, ofl, wfo⟩ := w
  obtain ⟨ar, ao, av⟩ := a
  cases root with
  | none => left; rfl
  | some e =>
    cases e with
    | file r => cases ao <;> cases ofl <;> simp [main, FSEntry.pyExists]
    | dir readable st cs => cases ao <;> cases ofl <;> simp [main, FSEntry.pyExists]
    | special st => cases ao <;> cases ofl <;> simp [main, FSEntry.pyExists]
    | symlink t => cases t <;> cases ao <;> cases ofl <;> simp [main, FSEntry.pyExists]

end FFT
